import Mathlib

/-!
Verification of the `stock-backtest-fundamental` processor
(`src/app/processor.py`).

The processor consists of two stateless functions over open records
(Python dictionaries):

* `validate_input_message` checks an incoming raw message against an
  external schema predicate and either raises
  `ValueError("Invalid message format")` or returns the message
  unchanged;
* `compute_fundamental_signal` extracts three numeric fields (with
  defaults), computes `score = eps + revenue_growth - debt_to_equity`,
  classifies it against the fixed threshold `1.5`, rounds the score to
  four decimal places, and returns the input record merged with the two
  produced fields.

Modelling choices:

* A record is an association list `List (String × Value)` with
  first-match lookup; this models a Python dict by its key/value
  (lookup) semantics.  Key iteration order is not modelled; the merge
  `{**message, **result}` on line 63, in which the produced fields take
  precedence, is modelled by prepending the produced fields.
* Python floats are modelled by exact rationals `ℚ`; `round(x, 4)` is
  modelled by exact round-half-to-even at four decimal places
  (Python's documented semantics for `round`).
* `float(v)` succeeds on numeric values and fails otherwise; a failed
  coercion is an `Except.error` carrying the offending field name.
* Logging calls have no functional effect and are omitted; the `symbol`
  field (line 47) is consumed only by logging.
-/

/-- A value stored in a record: a number (Python int/float, modelled
exactly as a rational) or a non-numeric value such as a string, on
which `float()` raises. -/
inductive Value where
  | num (q : ℚ)
  | str (s : String)
deriving DecidableEq

/-- An open record: an association list from string keys to values,
looked up by first match (a Python dict by its lookup semantics). -/
abbrev Record := List (String × Value)

/-- First-match lookup, the model of `dict.get`. -/
def Record.get (m : Record) (k : String) : Option Value :=
  match m with
  | [] => none
  | (k₁, v) :: rest => if k₁ = k then some v else Record.get rest k

/-- The model of Python `float(v)`: numbers coerce to themselves,
non-numeric values fail. -/
def toFloat : Value → Option ℚ
  | Value.num q => some q
  | Value.str _ => none

/-- Model of `validate_input_message` (processor.py lines 17-34): if
the external schema predicate rejects the message, raise
`ValueError("Invalid message format")`; otherwise return the message
unchanged.  The predicate is a parameter, as it is an external
collaborator. -/
def validate_input_message (validate_message_schema : Record → Bool)
    (message : Record) : Except String Record :=
  if validate_message_schema message then Except.ok message
  else Except.error "Invalid message format"

/-- Error raised by the scorer: a present numeric field could not be
coerced by `float()` (the `ValueError`/`TypeError` Python raises on
lines 48-50).  Carries the offending field name. -/
inductive ScoreError where
  | typeCoercion (field : String)
deriving DecidableEq

/-- Extraction of one numeric field, `float(message.get(k, d))`:
absent keys use the default `d`, present keys are coerced by `float`,
failing coercions raise. -/
def fieldFloat (m : Record) (k : String) (d : ℚ) : Except ScoreError ℚ :=
  match Record.get m k with
  | none => Except.ok d
  | some v =>
    match toFloat v with
    | some q => Except.ok q
    | none => Except.error (ScoreError.typeCoercion k)

/-- Round-half-to-even to the nearest integer: Python's `round` on the
exact value. -/
def roundHalfEven (q : ℚ) : ℤ :=
  if q - ⌊q⌋ < 1/2 then ⌊q⌋
  else if 1/2 < q - ⌊q⌋ then ⌊q⌋ + 1
  else if ⌊q⌋ % 2 = 0 then ⌊q⌋ else ⌊q⌋ + 1

/-- Model of `round(score, 4)`: round-half-to-even at four decimal
places. -/
def round4 (q : ℚ) : ℚ := (roundHalfEven (q * 10000) : ℚ) / 10000

/-- Model of `compute_fundamental_signal` (processor.py lines 37-63).
The `symbol` field (line 47, default `"UNKNOWN"`) is consumed only by
logging calls and has no functional effect, so it does not appear.
The merge on line 63, `{**message, **result}`, gives the two produced
fields precedence; under first-match lookup this is prepending them. -/
def compute_fundamental_signal (message : Record) :
    Except ScoreError Record :=
  match fieldFloat message "eps" 2.0 with
  | Except.error e => Except.error e
  | Except.ok eps =>
    match fieldFloat message "revenue_growth" 0.05 with
    | Except.error e => Except.error e
    | Except.ok revenue_growth =>
      match fieldFloat message "debt_to_equity" 0.4 with
      | Except.error e => Except.error e
      | Except.ok debt_to_equity =>
        let score := eps + revenue_growth - debt_to_equity
        let signal := if 1.5 < score then "BUY" else "HOLD"
        Except.ok
          (("fundamental_score", Value.num (round4 score)) ::
            ("fundamental_signal", Value.str signal) :: message)

/-- The effective value of a numeric field: the record's value when
present and coercible, the default otherwise. -/
def effVal (m : Record) (k : String) (d : ℚ) : ℚ :=
  match Record.get m k with
  | none => d
  | some v => (toFloat v).getD d

/-- The (unrounded) score the processor computes for a record on which
all coercions succeed. -/
def scoreOf (m : Record) : ℚ :=
  effVal m "eps" 2.0 + effVal m "revenue_growth" 0.05
    - effVal m "debt_to_equity" 0.4

/-- The signal string for a record: `"BUY"` iff the unrounded score
strictly exceeds `1.5`. -/
def signalOf (m : Record) : String :=
  if (1.5 : ℚ) < scoreOf m then "BUY" else "HOLD"

/-- The record the scorer returns on success: the two produced fields
prepended to (taking precedence over) the input record. -/
def outRecord (m : Record) : Record :=
  ("fundamental_score", Value.num (round4 (scoreOf m))) ::
    ("fundamental_signal", Value.str (signalOf m)) :: m

lemma fieldFloat_ok_val {m : Record} {k : String} {d x : ℚ}
    (h : fieldFloat m k d = Except.ok x) : x = effVal m k d := by
  unfold fieldFloat at h
  unfold effVal
  cases hg : Record.get m k with
  | none =>
    simp only [hg] at h ⊢
    cases h; rfl
  | some v =>
    simp only [hg] at h ⊢
    cases hf : toFloat v with
    | none => simp only [hf] at h; cases h
    | some q =>
      simp only [hf] at h ⊢
      cases h; rfl

lemma fieldFloat_error_elim {m : Record} {k : String} {d : ℚ}
    {e : ScoreError} (h : fieldFloat m k d = Except.error e) :
    e = ScoreError.typeCoercion k ∧
      ∃ v, Record.get m k = some v ∧ toFloat v = none := by
  unfold fieldFloat at h
  cases hg : Record.get m k with
  | none => simp only [hg] at h; cases h
  | some v =>
    simp only [hg] at h
    cases hf : toFloat v with
    | some q => simp only [hf] at h; cases h
    | none =>
      simp only [hf] at h
      cases h
      exact ⟨rfl, v, rfl, hf⟩

lemma fieldFloat_error_of {m : Record} {k : String} {d : ℚ} {v : Value}
    (hv : Record.get m k = some v) (hc : toFloat v = none) :
    fieldFloat m k d = Except.error (ScoreError.typeCoercion k) := by
  unfold fieldFloat
  simp only [hv, hc]

lemma fieldFloat_congr {m₁ m₂ : Record} {k : String} {d : ℚ}
    (h : Record.get m₁ k = Record.get m₂ k) :
    fieldFloat m₁ k d = fieldFloat m₂ k d := by
  unfold fieldFloat
  rw [h]

lemma effVal_congr {m₁ m₂ : Record} {k : String} {d : ℚ}
    (h : Record.get m₁ k = Record.get m₂ k) :
    effVal m₁ k d = effVal m₂ k d := by
  unfold effVal
  rw [h]

lemma compute_ok_of {m : Record} {e r d : ℚ}
    (he : fieldFloat m "eps" 2.0 = Except.ok e)
    (hr : fieldFloat m "revenue_growth" 0.05 = Except.ok r)
    (hd : fieldFloat m "debt_to_equity" 0.4 = Except.ok d) :
    compute_fundamental_signal m = Except.ok (outRecord m) := by
  unfold compute_fundamental_signal
  rw [he, hr, hd]
  rw [fieldFloat_ok_val he, fieldFloat_ok_val hr, fieldFloat_ok_val hd]
  rfl

lemma compute_eq_ok {m out : Record}
    (h : compute_fundamental_signal m = Except.ok out) :
    out = outRecord m := by
  unfold compute_fundamental_signal at h
  cases he : fieldFloat m "eps" 2.0 with
  | error e => rw [he] at h; cases h
  | ok eps =>
    rw [he] at h
    cases hr : fieldFloat m "revenue_growth" 0.05 with
    | error e => rw [hr] at h; cases h
    | ok rg =>
      rw [hr] at h
      cases hd : fieldFloat m "debt_to_equity" 0.4 with
      | error e => rw [hd] at h; cases h
      | ok dte =>
        rw [hd] at h
        rw [fieldFloat_ok_val he, fieldFloat_ok_val hr,
          fieldFloat_ok_val hd] at h
        cases h
        rfl

lemma compute_ok_fields {m out : Record}
    (h : compute_fundamental_signal m = Except.ok out) :
    (∃ x, fieldFloat m "eps" 2.0 = Except.ok x) ∧
      (∃ x, fieldFloat m "revenue_growth" 0.05 = Except.ok x) ∧
      (∃ x, fieldFloat m "debt_to_equity" 0.4 = Except.ok x) := by
  unfold compute_fundamental_signal at h
  cases he : fieldFloat m "eps" 2.0 with
  | error e => rw [he] at h; cases h
  | ok eps =>
    rw [he] at h
    cases hr : fieldFloat m "revenue_growth" 0.05 with
    | error e => rw [hr] at h; cases h
    | ok rg =>
      rw [hr] at h
      cases hd : fieldFloat m "debt_to_equity" 0.4 with
      | error e => rw [hd] at h; cases h
      | ok dte => exact ⟨⟨eps, rfl⟩, ⟨rg, rfl⟩, ⟨dte, rfl⟩⟩

lemma compute_error_elim {m : Record} {e : ScoreError}
    (h : compute_fundamental_signal m = Except.error e) :
    ∃ k, (k = "eps" ∨ k = "revenue_growth" ∨ k = "debt_to_equity") ∧
      e = ScoreError.typeCoercion k ∧
      ∃ v, Record.get m k = some v ∧ toFloat v = none := by
  unfold compute_fundamental_signal at h
  cases he : fieldFloat m "eps" 2.0 with
  | error e₁ =>
    rw [he] at h
    cases h
    obtain ⟨h₁, h₂⟩ := fieldFloat_error_elim he
    exact ⟨"eps", Or.inl rfl, h₁, h₂⟩
  | ok eps =>
    rw [he] at h
    cases hr : fieldFloat m "revenue_growth" 0.05 with
    | error e₂ =>
      rw [hr] at h
      cases h
      obtain ⟨h₁, h₂⟩ := fieldFloat_error_elim hr
      exact ⟨"revenue_growth", Or.inr (Or.inl rfl), h₁, h₂⟩
    | ok rg =>
      rw [hr] at h
      cases hd : fieldFloat m "debt_to_equity" 0.4 with
      | error e₃ =>
        rw [hd] at h
        cases h
        obtain ⟨h₁, h₂⟩ := fieldFloat_error_elim hd
        exact ⟨"debt_to_equity", Or.inr (Or.inr rfl), h₁, h₂⟩
      | ok dte => rw [hd] at h; cases h

lemma compute_error_of {m : Record} {k : String} {v : Value}
    (hk : k = "eps" ∨ k = "revenue_growth" ∨ k = "debt_to_equity")
    (hv : Record.get m k = some v) (hc : toFloat v = none) :
    ∃ f, (f = "eps" ∨ f = "revenue_growth" ∨ f = "debt_to_equity") ∧
      compute_fundamental_signal m =
        Except.error (ScoreError.typeCoercion f) := by
  unfold compute_fundamental_signal
  cases he : fieldFloat m "eps" 2.0 with
  | error e₁ =>
    obtain ⟨h₁, _⟩ := fieldFloat_error_elim he
    exact ⟨"eps", Or.inl rfl, by rw [h₁]⟩
  | ok eps =>
    cases hr : fieldFloat m "revenue_growth" 0.05 with
    | error e₂ =>
      obtain ⟨h₁, _⟩ := fieldFloat_error_elim hr
      exact ⟨"revenue_growth", Or.inr (Or.inl rfl), by rw [h₁]⟩
    | ok rg =>
      cases hd : fieldFloat m "debt_to_equity" 0.4 with
      | error e₃ =>
        obtain ⟨h₁, _⟩ := fieldFloat_error_elim hd
        exact ⟨"debt_to_equity", Or.inr (Or.inr rfl), by rw [h₁]⟩
      | ok dte =>
        exfalso
        rcases hk with hk | hk | hk
        · rw [hk] at hv
          rw [fieldFloat_error_of hv hc] at he
          cases he
        · rw [hk] at hv
          rw [fieldFloat_error_of hv hc] at hr
          cases hr
        · rw [hk] at hv
          rw [fieldFloat_error_of hv hc] at hd
          cases hd

lemma roundHalfEven_abs_le (q : ℚ) :
    |(roundHalfEven q : ℚ) - q| ≤ 1/2 := by
  have h1 : (⌊q⌋ : ℚ) ≤ q := Int.floor_le q
  have h2 : q < ⌊q⌋ + 1 := Int.lt_floor_add_one q
  unfold roundHalfEven
  split_ifs with ha hb hc <;>
    · rw [abs_le]
      constructor <;> push_cast <;> linarith

lemma roundHalfEven_tie_even (q : ℚ) (h : q - (⌊q⌋ : ℚ) = 1/2) :
    roundHalfEven q % 2 = 0 := by
  unfold roundHalfEven
  rw [h]
  simp only [lt_irrefl, if_false]
  by_cases he : ⌊q⌋ % 2 = 0
  · simp [he]
  · simp only [he, if_false]
    omega

lemma get_outRecord_score (m : Record) :
    Record.get (outRecord m) "fundamental_score"
      = some (Value.num (round4 (scoreOf m))) := by
  simp [outRecord, Record.get]

lemma get_outRecord_signal (m : Record) :
    Record.get (outRecord m) "fundamental_signal"
      = some (Value.str (signalOf m)) := by
  simp [outRecord, Record.get]

lemma get_outRecord_other (m : Record) (k : String)
    (h₁ : k ≠ "fundamental_score") (h₂ : k ≠ "fundamental_signal") :
    Record.get (outRecord m) k = Record.get m k := by
  simp only [outRecord, Record.get]
  rw [if_neg fun hc => h₁ hc.symm, if_neg fun hc => h₂ hc.symm]

lemma get_outRecord_keys (m : Record) (k : String)
    (h : (Record.get (outRecord m) k).isSome) :
    (Record.get m k).isSome ∨ k = "fundamental_score"
      ∨ k = "fundamental_signal" := by
  by_cases h₁ : k = "fundamental_score"
  · exact Or.inr (Or.inl h₁)
  by_cases h₂ : k = "fundamental_signal"
  · exact Or.inr (Or.inr h₂)
  · rw [get_outRecord_other m k h₁ h₂] at h
    exact Or.inl h

lemma signal_buy_iff {m out : Record}
    (h : compute_fundamental_signal m = Except.ok out) :
    Record.get out "fundamental_signal" = some (Value.str "BUY") ↔
      (1.5 : ℚ) < scoreOf m := by
  have hout := compute_eq_ok h
  subst hout
  rw [get_outRecord_signal]
  unfold signalOf
  by_cases hlt : (1.5 : ℚ) < scoreOf m
  · simp [hlt]
  · simp [hlt]

lemma signal_hold_iff {m out : Record}
    (h : compute_fundamental_signal m = Except.ok out) :
    Record.get out "fundamental_signal" = some (Value.str "HOLD") ↔
      ¬ (1.5 : ℚ) < scoreOf m := by
  have hout := compute_eq_ok h
  subst hout
  rw [get_outRecord_signal]
  unfold signalOf
  by_cases hlt : (1.5 : ℚ) < scoreOf m
  · simp [hlt]
  · simp [hlt]

/-- C1: for every validated record the scorer accepts, the stored score
is the rounding of `score = eps + revenue_growth - debt_to_equity` with
unit coefficients, where each operand is the record's value when the
field is present and the default (`2.0`, `0.05`, `0.4`) when absent. -/
theorem scorer_formula_unit_coefficients_defaults (m out : Record)
    (h : compute_fundamental_signal m = Except.ok out) :
    Record.get out "fundamental_score"
        = some (Value.num (round4 (scoreOf m)))
    ∧ scoreOf m = effVal m "eps" 2.0 + effVal m "revenue_growth" 0.05
        - effVal m "debt_to_equity" 0.4
    ∧ (∀ q, Record.get m "eps" = some (Value.num q) →
        effVal m "eps" 2.0 = q)
    ∧ (Record.get m "eps" = none → effVal m "eps" 2.0 = 2.0)
    ∧ (∀ q, Record.get m "revenue_growth" = some (Value.num q) →
        effVal m "revenue_growth" 0.05 = q)
    ∧ (Record.get m "revenue_growth" = none →
        effVal m "revenue_growth" 0.05 = 0.05)
    ∧ (∀ q, Record.get m "debt_to_equity" = some (Value.num q) →
        effVal m "debt_to_equity" 0.4 = q)
    ∧ (Record.get m "debt_to_equity" = none →
        effVal m "debt_to_equity" 0.4 = 0.4) := by
  have hout := compute_eq_ok h
  subst hout
  refine ⟨get_outRecord_score m, rfl, ?_, ?_, ?_, ?_, ?_, ?_⟩ <;>
    first
      | intro q hq
        simp [effVal, hq, toFloat]
      | intro hq
        simp [effVal, hq]

/-- Input of the spec's end-to-end example: symbol ACME, eps 3.0,
revenue growth 0.1, debt-to-equity 0.2. -/
def w1in : Record :=
  [("symbol", Value.str "ACME"), ("eps", Value.num 3),
    ("revenue_growth", Value.num (1/10)), ("debt_to_equity", Value.num (1/5))]

theorem scorer_formula_unit_coefficients_defaults_witness :
    Record.get (outRecord w1in) "fundamental_score"
      = some (Value.num (round4 (scoreOf w1in))) :=
  (scorer_formula_unit_coefficients_defaults w1in (outRecord w1in)
    (by simp [compute_fundamental_signal, fieldFloat, Record.get, toFloat,
      w1in, outRecord, scoreOf, effVal, signalOf])).1

/-- Boundary record of C2: eps 0, revenue growth 0, debt-to-equity
-1.5, whose score is exactly the threshold 1.5. -/
def w2in : Record :=
  [("eps", Value.num 0), ("revenue_growth", Value.num 0),
    ("debt_to_equity", Value.num (-(3/2)))]

/-- C2: the signal is BUY exactly when the score strictly exceeds 1.5
and HOLD otherwise; the boundary record with score exactly 1.5 gets
HOLD. -/
theorem signal_buy_iff_score_gt_threshold :
    (∀ m out, compute_fundamental_signal m = Except.ok out →
      ((Record.get out "fundamental_signal" = some (Value.str "BUY") ↔
          (1.5 : ℚ) < scoreOf m)
        ∧ (Record.get out "fundamental_signal" = some (Value.str "HOLD") ↔
          ¬ (1.5 : ℚ) < scoreOf m)))
    ∧ scoreOf w2in = 1.5
    ∧ (∃ out, compute_fundamental_signal w2in = Except.ok out
        ∧ Record.get out "fundamental_signal" = some (Value.str "HOLD")) := by
  have hscore : scoreOf w2in = 1.5 := by
    simp [w2in, scoreOf, effVal, Record.get, toFloat]; norm_num
  refine ⟨fun m out h => ⟨signal_buy_iff h, signal_hold_iff h⟩, hscore, ?_⟩
  refine ⟨outRecord w2in,
    by simp [compute_fundamental_signal, fieldFloat, Record.get, toFloat,
      w2in, outRecord, scoreOf, effVal, signalOf], ?_⟩
  rw [get_outRecord_signal]
  unfold signalOf
  rw [hscore, if_neg (lt_irrefl (1.5 : ℚ))]

/-- C3: the scorer's output is the input overwritten/extended by exactly
the two produced fields. -/
theorem output_record_frame (m out : Record)
    (h : compute_fundamental_signal m = Except.ok out) :
    (∀ k, k ≠ "fundamental_score" → k ≠ "fundamental_signal" →
        Record.get out k = Record.get m k)
    ∧ Record.get out "fundamental_score"
        = some (Value.num (round4 (scoreOf m)))
    ∧ Record.get out "fundamental_signal"
        = some (Value.str (signalOf m))
    ∧ (∀ k, (Record.get out k).isSome → (Record.get m k).isSome
        ∨ k = "fundamental_score" ∨ k = "fundamental_signal") := by
  have hout := compute_eq_ok h
  subst hout
  exact ⟨fun k h₁ h₂ => get_outRecord_other m k h₁ h₂,
    get_outRecord_score m, get_outRecord_signal m,
    fun k hk => get_outRecord_keys m k hk⟩

/-- Input of the C3 witness: carries an unrelated key and a stale
`fundamental_score` that the produced field must override. -/
def w3in : Record :=
  [("symbol", Value.str "ACME"), ("fundamental_score", Value.num 99),
    ("note", Value.str "keep")]

theorem output_record_frame_witness :
    Record.get (outRecord w3in) "note" = Record.get w3in "note"
    ∧ Record.get (outRecord w3in) "fundamental_score"
        = some (Value.num (round4 (scoreOf w3in)))
    ∧ Record.get (outRecord w3in) "fundamental_score"
        ≠ some (Value.num 99) := by
  have h := output_record_frame w3in (outRecord w3in)
    (by simp [compute_fundamental_signal, fieldFloat, Record.get, toFloat,
      w3in, outRecord, scoreOf, effVal, signalOf])
  refine ⟨h.1 "note" (by decide) (by decide), h.2.1, ?_⟩
  rw [h.2.1]
  have hs : scoreOf w3in = 33/20 := by
    simp [w3in, scoreOf, effVal, Record.get, toFloat]; norm_num
  have hr : round4 (scoreOf w3in) = 33/20 := by
    rw [hs]
    norm_num [round4, roundHalfEven]
  rw [hr]
  norm_num

/-- C4: the validator fails with the invalid-input error exactly when
the external schema predicate rejects the record (and then produces no
output), and otherwise returns the input unchanged. -/
theorem validator_gate_identity (p : Record → Bool) (m : Record) :
    (validate_input_message p m = Except.error "Invalid message format" ↔
      p m = false)
    ∧ (p m = true → validate_input_message p m = Except.ok m)
    ∧ (p m = false → ∀ out, validate_input_message p m ≠ Except.ok out) := by
  cases hp : p m <;> simp [validate_input_message, hp]

/-- Record accepted by the C4 witness predicate (it has a symbol). -/
def w4in : Record := [("symbol", Value.str "ACME")]

theorem validator_gate_identity_witness :
    validate_input_message (fun r => (Record.get r "symbol").isSome) w4in
        = Except.ok w4in
    ∧ validate_input_message (fun r => (Record.get r "symbol").isSome) []
        = Except.error "Invalid message format" :=
  ⟨(validator_gate_identity (fun r => (Record.get r "symbol").isSome)
      w4in).2.1 (by simp [w4in, Record.get]),
    (validator_gate_identity (fun r => (Record.get r "symbol").isSome)
      []).1.mpr (by simp [Record.get])⟩

/-- C5: a present but non-coercible numeric field makes the scorer fail
with a type-coercion error and produce no output; absent fields take
the default instead of being coerced. -/
theorem scorer_error_on_noncoercible_field (m : Record) (k : String)
    (v : Value)
    (hk : k = "eps" ∨ k = "revenue_growth" ∨ k = "debt_to_equity")
    (hv : Record.get m k = some v) (hc : toFloat v = none) :
    (∃ f, (f = "eps" ∨ f = "revenue_growth" ∨ f = "debt_to_equity") ∧
      compute_fundamental_signal m =
        Except.error (ScoreError.typeCoercion f))
    ∧ (∀ out, compute_fundamental_signal m ≠ Except.ok out)
    ∧ (∀ (m₂ : Record) (k₂ : String) (d : ℚ), Record.get m₂ k₂ = none →
        fieldFloat m₂ k₂ d = Except.ok d) := by
  obtain ⟨f, hf, herr⟩ := compute_error_of hk hv hc
  refine ⟨⟨f, hf, herr⟩, ?_, ?_⟩
  · intro out hout
    rw [herr] at hout
    cases hout
  · intro m₂ k₂ d hnone
    unfold fieldFloat
    simp [hnone]

/-- Record with a non-coercible `eps`, the C5 witness input. -/
def w5in : Record := [("eps", Value.str "not-a-number")]

theorem scorer_error_on_noncoercible_field_witness :
    ∃ f, (f = "eps" ∨ f = "revenue_growth" ∨ f = "debt_to_equity") ∧
      compute_fundamental_signal w5in =
        Except.error (ScoreError.typeCoercion f) :=
  (scorer_error_on_noncoercible_field w5in "eps"
    (Value.str "not-a-number") (Or.inl rfl)
    (by simp [w5in, Record.get]) (by simp [toFloat])).1

/-- C6: a record missing all three numeric fields scores
`2.0 + 0.05 - 0.4 = 1.65` and is classified BUY. -/
theorem defaults_score_165_buy (m : Record)
    (he : Record.get m "eps" = none)
    (hr : Record.get m "revenue_growth" = none)
    (hd : Record.get m "debt_to_equity" = none) :
    compute_fundamental_signal m = Except.ok (outRecord m)
    ∧ scoreOf m = 2.0 + 0.05 - 0.4
    ∧ round4 (scoreOf m) = 1.65
    ∧ Record.get (outRecord m) "fundamental_score"
        = some (Value.num 1.65)
    ∧ Record.get (outRecord m) "fundamental_signal"
        = some (Value.str "BUY") := by
  have hfe : fieldFloat m "eps" 2.0 = Except.ok 2.0 := by
    unfold fieldFloat
    simp [he]
  have hfr : fieldFloat m "revenue_growth" 0.05 = Except.ok 0.05 := by
    unfold fieldFloat
    simp [hr]
  have hfd : fieldFloat m "debt_to_equity" 0.4 = Except.ok 0.4 := by
    unfold fieldFloat
    simp [hd]
  have hscore : scoreOf m = 33/20 := by
    unfold scoreOf effVal
    simp [he, hr, hd]
    norm_num
  have hround : round4 (scoreOf m) = 1.65 := by
    rw [hscore]
    norm_num [round4, roundHalfEven]
  refine ⟨compute_ok_of hfe hfr hfd, by rw [hscore]; norm_num, hround,
    ?_, ?_⟩
  · rw [get_outRecord_score m, hround]
  · rw [get_outRecord_signal m]
    unfold signalOf
    rw [if_pos (by rw [hscore]; norm_num)]

/-- Record with no numeric fields at all, the C6 witness input. -/
def w6in : Record := [("symbol", Value.str "ACME")]

theorem defaults_score_165_buy_witness :
    Record.get (outRecord w6in) "fundamental_score"
        = some (Value.num 1.65)
    ∧ Record.get (outRecord w6in) "fundamental_signal"
        = some (Value.str "BUY") := by
  have h := defaults_score_165_buy w6in (by simp [w6in, Record.get])
    (by simp [w6in, Record.get]) (by simp [w6in, Record.get])
  exact ⟨h.2.2.2.1, h.2.2.2.2⟩

/-- C7: the stored score is the exact score rounded at four decimal
places by a rounding that is within half a unit of the scaled value and
sends exact halves to even integers (round-half-to-even). -/
theorem score_rounded_half_even_4dp (m out : Record)
    (h : compute_fundamental_signal m = Except.ok out) :
    Record.get out "fundamental_score"
        = some (Value.num ((roundHalfEven (scoreOf m * 10000) : ℚ) / 10000))
    ∧ (∀ q : ℚ, |(roundHalfEven q : ℚ) - q| ≤ 1/2)
    ∧ (∀ q : ℚ, q - (⌊q⌋ : ℚ) = 1/2 → roundHalfEven q % 2 = 0) := by
  have hout := compute_eq_ok h
  subst hout
  exact ⟨(get_outRecord_score m).trans (by rw [round4]),
    roundHalfEven_abs_le, roundHalfEven_tie_even⟩

/-- Record of the C7 rounding example: eps 1.23456, revenue growth 0,
debt-to-equity 0. -/
def w7in : Record :=
  [("eps", Value.num (123456/100000)), ("revenue_growth", Value.num 0),
    ("debt_to_equity", Value.num 0)]

theorem score_rounded_half_even_4dp_witness :
    Record.get (outRecord w7in) "fundamental_score"
        = some (Value.num ((roundHalfEven (scoreOf w7in * 10000) : ℚ)
            / 10000))
    ∧ Record.get (outRecord w7in) "fundamental_score"
        = some (Value.num 1.2346) := by
  have h := score_rounded_half_even_4dp w7in (outRecord w7in)
    (by simp [compute_fundamental_signal, fieldFloat, Record.get, toFloat,
      w7in, outRecord, scoreOf, effVal, signalOf])
  refine ⟨h.1, h.1.trans ?_⟩
  have hs : scoreOf w7in = 123456/100000 := by
    simp [w7in, scoreOf, effVal, Record.get, toFloat]
  rw [hs]
  norm_num [roundHalfEven]

/-- C8: the scorer is deterministic — identical inputs yield identical
outputs (it is a pure function of the record). -/
theorem scorer_deterministic (m₁ m₂ : Record) (h : m₁ = m₂) :
    compute_fundamental_signal m₁ = compute_fundamental_signal m₂ := by
  rw [h]

/-- Input of the C8 witness. -/
def w8in : Record := [("symbol", Value.str "ACME"), ("eps", Value.num 3)]

theorem scorer_deterministic_witness :
    compute_fundamental_signal w8in = compute_fundamental_signal w8in :=
  scorer_deterministic w8in w8in rfl

/-- C9: the produced fields do not depend on the `symbol` field — two
records that agree on every key other than `symbol` succeed together
and get the same produced score and signal. -/
theorem produced_fields_independent_of_symbol (m₁ m₂ : Record)
    (h : ∀ k, k ≠ "symbol" → Record.get m₁ k = Record.get m₂ k) :
    ((∃ o, compute_fundamental_signal m₁ = Except.ok o) ↔
      (∃ o, compute_fundamental_signal m₂ = Except.ok o))
    ∧ (∀ o₁ o₂, compute_fundamental_signal m₁ = Except.ok o₁ →
        compute_fundamental_signal m₂ = Except.ok o₂ →
        Record.get o₁ "fundamental_score"
            = Record.get o₂ "fundamental_score"
          ∧ Record.get o₁ "fundamental_signal"
            = Record.get o₂ "fundamental_signal") := by
  have hsc : scoreOf m₁ = scoreOf m₂ := by
    unfold scoreOf
    rw [effVal_congr (h "eps" (by decide)),
      effVal_congr (h "revenue_growth" (by decide)),
      effVal_congr (h "debt_to_equity" (by decide))]
  have step : ∀ (a b : Record),
      (∀ k, k ≠ "symbol" → Record.get a k = Record.get b k) →
      (∃ o, compute_fundamental_signal a = Except.ok o) →
      ∃ o, compute_fundamental_signal b = Except.ok o := by
    intro a b hab ⟨o, ho⟩
    obtain ⟨⟨e, hee⟩, ⟨r, hrr⟩, ⟨dd, hdd⟩⟩ := compute_ok_fields ho
    have hbe : fieldFloat b "eps" 2.0 = Except.ok e := by
      rw [← fieldFloat_congr (hab "eps" (by decide))]
      exact hee
    have hbr : fieldFloat b "revenue_growth" 0.05 = Except.ok r := by
      rw [← fieldFloat_congr (hab "revenue_growth" (by decide))]
      exact hrr
    have hbd : fieldFloat b "debt_to_equity" 0.4 = Except.ok dd := by
      rw [← fieldFloat_congr (hab "debt_to_equity" (by decide))]
      exact hdd
    exact ⟨outRecord b, compute_ok_of hbe hbr hbd⟩
  refine ⟨⟨step m₁ m₂ h, step m₂ m₁ fun k hk => (h k hk).symm⟩, ?_⟩
  intro o₁ o₂ h₁ h₂
  have e₁ := compute_eq_ok h₁
  have e₂ := compute_eq_ok h₂
  subst e₁
  subst e₂
  constructor
  · rw [get_outRecord_score, get_outRecord_score, hsc]
  · rw [get_outRecord_signal, get_outRecord_signal]
    unfold signalOf
    rw [hsc]

/-- C9 witness input with a symbol. -/
def w9a : Record := [("symbol", Value.str "AAA"), ("eps", Value.num 3)]

/-- C9 witness input identical to `w9a` except that `symbol` is
absent. -/
def w9b : Record := [("eps", Value.num 3)]

theorem produced_fields_independent_of_symbol_witness :
    Record.get (outRecord w9a) "fundamental_score"
        = Record.get (outRecord w9b) "fundamental_score"
    ∧ Record.get (outRecord w9a) "fundamental_signal"
        = Record.get (outRecord w9b) "fundamental_signal" := by
  have h := produced_fields_independent_of_symbol w9a w9b (by
    intro k hk
    simp only [w9a, w9b, Record.get]
    rw [if_neg fun hc => hk hc.symm])
  exact h.2 (outRecord w9a) (outRecord w9b)
    (by simp [compute_fundamental_signal, fieldFloat, Record.get, toFloat,
      w9a, outRecord, scoreOf, effVal, signalOf])
    (by simp [compute_fundamental_signal, fieldFloat, Record.get, toFloat,
      w9b, outRecord, scoreOf, effVal, signalOf])

/-- Record of the C10 example: eps 1.50004, revenue growth 0,
debt-to-equity 0, whose exact score exceeds 1.5 but rounds to 1.5. -/
def w10in : Record :=
  [("eps", Value.num (150004/100000)), ("revenue_growth", Value.num 0),
    ("debt_to_equity", Value.num 0)]

/-- C10: the BUY/HOLD decision is taken on the unrounded score, so a
record whose exact score exceeds 1.5 but rounds to 1.5 is reported with
`fundamental_score = 1.5` and `fundamental_signal = "BUY"`. -/
theorem classification_before_rounding :
    (∀ m out, compute_fundamental_signal m = Except.ok out →
      (Record.get out "fundamental_signal" = some (Value.str "BUY") ↔
        (1.5 : ℚ) < scoreOf m))
    ∧ (1.5 : ℚ) < scoreOf w10in
    ∧ round4 (scoreOf w10in) = 1.5
    ∧ (∃ out, compute_fundamental_signal w10in = Except.ok out
        ∧ Record.get out "fundamental_score" = some (Value.num 1.5)
        ∧ Record.get out "fundamental_signal"
            = some (Value.str "BUY")) := by
  have hs : scoreOf w10in = 150004/100000 := by
    simp [w10in, scoreOf, effVal, Record.get, toFloat]
  have hlt : (1.5 : ℚ) < scoreOf w10in := by
    rw [hs]
    norm_num
  have hround : round4 (scoreOf w10in) = 1.5 := by
    rw [hs]
    norm_num [round4, roundHalfEven]
  refine ⟨fun m out h => signal_buy_iff h, hlt, hround, outRecord w10in,
    by simp [compute_fundamental_signal, fieldFloat, Record.get, toFloat,
      w10in, outRecord, scoreOf, effVal, signalOf], ?_, ?_⟩
  · rw [get_outRecord_score, hround]
  · rw [get_outRecord_signal]
    unfold signalOf
    rw [if_pos hlt]
